import Mathlib

/-!
Shallow embedding of the `bee` compiler pipeline.

The repository has two generations of the core:

* `src/main.rs` — a self-contained pipeline: `analyze` (semantic analysis over a flat
  `SymbolTable`), `code_gen` (bytecode emission over the same table) and `interpret`
  (the VM: 32 `usize` registers, a slot-indexed variable map, line-oriented output).
  This is the binary that actually runs; it is embedded in namespace `Bee`.
* `src/ast.rs`, `src/opcode.rs`, `src/code_gen.rs` — a newer, module-based code
  generator working on a `Document` with per-function variable lists. It is embedded
  in namespace `CG`.

Rust `panic!` sites are modelled as `Except` errors, one error constructor per panic
message.  `Vec::push` on the output vector becomes appending to a `List`.  `usize`
arithmetic is modelled on `Nat` with wrap-around modulo `2 ^ 64`.
-/

deriving instance DecidableEq for Except

/-- The AST of `main.rs` (`enum AbstractSyntaxTree`).  The module version in
`src/ast.rs` is the same enumeration minus the `Const` and `Fn` constructors
(and neither file defines a `Float` node, although `code_gen.rs` pattern-matches
on one; those unreachable arms are not modelled). -/
inductive Ast where
  | Const (name : String) (type_annot : String) (value : Ast)
  | Let (name : String) (type_annot : String) (value : Ast)
  | Int (value : Nat)
  | String (value : String)
  | Name (name : String)
  | UpName (name : String)
  | Plus (left : Ast) (right : Ast)
  | Minus (left : Ast) (right : Ast)
  | LtGt (left : Ast) (right : Ast)
  | And (left : Ast) (right : Ast)
  | Or (left : Ast) (right : Ast)
  | Not (value : Ast)
  | Fn (name : String) (body : List Ast)
  | Call (name : String) (args : List Ast)
  | Block (statements : List Ast)

/-- Rust `Iterator::position(pred)`: index of the first element satisfying the
predicate. -/
def position (p : α → Bool) : List α → Option Nat
  | [] => none
  | a :: l => if p a then some 0 else (position p l).map (· + 1)

/-- Rust `str::parse::<usize>()` (used to materialize a constant's stored
string value): succeeds on a nonempty all-digit string, yielding its decimal
value; fails otherwise (e.g. on the stored boolean values "True"/"False"). -/
def parseNat (s : String) : Option Nat :=
  if s.data.isEmpty then none
  else if s.data.all (fun c => c.isDigit) then
    some (s.data.foldl (fun acc c => acc * 10 + (c.toNat - 48)) 0)
  else none

/-- Panic sites of `code_gen` in `main.rs` (and of `code_gen.rs`). -/
inductive CErr where
  | invalidValue         -- panic!("Invalid value")
  | invalidFunctionName  -- panic!("Invalid function name")
  | invalidCode          -- panic!("Invalid code")
  | noArgs               -- panic!("No args")
  | unwrapFailed         -- .unwrap() on a None (failed position/find/parse)
deriving DecidableEq, Repr

namespace Bee

/-- `struct Variable` of `main.rs`: no slot field; the slot is the position in
the `variables` vector. -/
structure Variable where
  name : String
  type_annot : String
deriving DecidableEq, Repr

/-- `struct Constant` of `main.rs`; the value is kept in its string form. -/
structure Constant where
  name : String
  type_annot : String
  value : String
deriving DecidableEq, Repr

/-- `struct Function` of `main.rs`. -/
structure Function where
  name : String
deriving DecidableEq, Repr

/-- `struct SymbolTable` of `main.rs`: one flat variable list shared by the
single function. -/
structure SymbolTable where
  vars : List Variable       -- `variables` in the source (`variables` is reserved in Lean 4)
  functions : List Function
  constants : List Constant
deriving DecidableEq, Repr

/-- Panic messages of `analyze` in `main.rs`, one constructor per message. -/
inductive AErr where
  | typeMismatch      -- panic!("Type mismatch")
  | invalidValue      -- panic!("Invalid value")
  | invalidType       -- panic!("Invalid type")
  | variableNotFound  -- panic!("Variable not found")
deriving DecidableEq, Repr

/-- `enum OpCode` of `main.rs`.  All operands are `usize`. -/
inductive OpCode where
  | And (arg1 arg2 arg3 : Nat)
  | Or (arg1 arg2 arg3 : Nat)
  | Not (value : Nat)
  | Add (arg1 arg2 arg3 : Nat)
  | Sub (arg1 arg2 arg3 : Nat)
  | Load (arg1 arg2 : Nat)
  | LoadImm (arg1 arg2 : Nat)
  | Move (arg1 arg2 : Nat)
  | Store (arg1 arg2 : Nat)
  | StoreImm (arg1 arg2 : Nat)
  | Print (arg1 : Nat)
  | Halt
deriving DecidableEq, Repr

/-- The operand check that `analyze` repeats verbatim for the left and right
operand of `Plus` and `Minus` (`main.rs` lines 633-670): an integer literal must
match the declared type `Integer`; a name is resolved against the variable list
only. -/
def analyzeIntOperand (operand : Ast) (type_annot : String) (st : SymbolTable) :
    Except AErr Unit :=
  match operand with
  | .Int _ => if type_annot != "Integer" then .error .typeMismatch else .ok ()
  | .Name n =>
    match st.vars.find? (fun v => v.name == n) with
    | some v => if v.type_annot != type_annot then .error .typeMismatch else .ok ()
    | none => .error .variableNotFound
  | _ => .error .invalidValue

/-- The operand check `analyze` repeats for the operands of `LtGt`
(`main.rs` lines 721-758). -/
def analyzeStrOperand (operand : Ast) (type_annot : String) (st : SymbolTable) :
    Except AErr Unit :=
  match operand with
  | .String _ => if type_annot != "String" then .error .typeMismatch else .ok ()
  | .Name n =>
    match st.vars.find? (fun v => v.name == n) with
    | some v => if v.type_annot != type_annot then .error .typeMismatch else .ok ()
    | none => .error .variableNotFound
  | _ => .error .invalidValue

/-- The operand check `analyze` repeats for the operands of `And`/`Or`/`Not`
(`main.rs` lines 766-803, 810-828): a boolean literal must be `True`/`False`
(otherwise panic "Invalid value"); a name is resolved against variables only. -/
def analyzeBoolOperand (operand : Ast) (type_annot : String) (st : SymbolTable) :
    Except AErr Unit :=
  match operand with
  | .UpName n =>
    if n != "True" && n != "False" then .error .invalidValue else .ok ()
  | .Name n =>
    match st.vars.find? (fun v => v.name == n) with
    | some v => if v.type_annot != type_annot then .error .typeMismatch else .ok ()
    | none => .error .variableNotFound
  | _ => .error .invalidValue

/-- The inner `match *value` of the `Let` arm of `analyze`
(`main.rs` lines 600-831).  Returns `()` when the statement type-checks. -/
def analyzeLetInit (value : Ast) (type_annot : String) (st : SymbolTable) :
    Except AErr Unit :=
  match value with
  | .Int _ => if type_annot != "Integer" then .error .typeMismatch else .ok ()
  | .String _ => if type_annot != "String" then .error .typeMismatch else .ok ()
  | .UpName n =>
    if type_annot == "Bool" && (n == "True" || n == "False") then .ok ()
    else .error .typeMismatch
  | .Name n =>
    -- resolves against `symbol_table.variables` only; constants are not consulted
    match st.vars.find? (fun v => v.name == n) with
    | some v => if v.type_annot != type_annot then .error .typeMismatch else .ok ()
    | none => .error .variableNotFound
  | .Plus left right =>
    match type_annot with
    | "Integer" =>
      match analyzeIntOperand left type_annot st with
      | .error e => .error e
      | .ok _ => analyzeIntOperand right type_annot st
    | _ => .error .invalidType
  | .Minus left right =>
    match type_annot with
    | "Integer" =>
      match analyzeIntOperand left type_annot st with
      | .error e => .error e
      | .ok _ => analyzeIntOperand right type_annot st
    | _ => .error .invalidType
  | .LtGt left right =>
    match type_annot with
    | "String" =>
      match analyzeStrOperand left type_annot st with
      | .error e => .error e
      | .ok _ => analyzeStrOperand right type_annot st
    | _ => .error .invalidType
  | .And left right =>
    -- `AbstractSyntaxTree::And { .. } | AbstractSyntaxTree::Or { .. }` share one arm
    match type_annot with
    | "Bool" =>
      match analyzeBoolOperand left type_annot st with
      | .error e => .error e
      | .ok _ => analyzeBoolOperand right type_annot st
    | _ => .error .invalidType
  | .Or left right =>
    match type_annot with
    | "Bool" =>
      match analyzeBoolOperand left type_annot st with
      | .error e => .error e
      | .ok _ => analyzeBoolOperand right type_annot st
    | _ => .error .invalidType
  | .Not v =>
    match type_annot with
    | "Bool" => analyzeBoolOperand v type_annot st
    | _ => .error .invalidType
  | _ => .error .invalidValue

mutual

/-- `fn analyze` of `main.rs` (lines 553-873).  The `&mut SymbolTable` becomes
state passing; a `panic!` becomes an error. -/
def analyze : Ast → SymbolTable → Except AErr SymbolTable
  | .Const name type_annot value, st =>
    match value with
    | .Int intValue =>
      if type_annot != "Integer" then .error .typeMismatch
      else .ok { st with constants := st.constants ++ [⟨name, type_annot, toString intValue⟩] }
    | .String stringValue =>
      if type_annot != "String" then .error .typeMismatch
      else .ok { st with constants := st.constants ++ [⟨name, type_annot, stringValue⟩] }
    | .UpName boolName =>
      if type_annot == "Bool" && (boolName == "True" || boolName == "False") then
        .ok { st with constants := st.constants ++ [⟨name, type_annot, boolName⟩] }
      else .error .typeMismatch
    | _ => .error .invalidValue
  | .Let name type_annot value, st =>
    match analyzeLetInit value type_annot st with
    | .error e => .error e
    | .ok _ => .ok { st with vars := st.vars ++ [⟨name, type_annot⟩] }
  | .Fn fname body, st =>
    analyzeList body { st with functions := st.functions ++ [⟨fname⟩] }
  | .Block statements, st => analyzeList statements st
  | .Plus left right, st =>
    match analyze left st with
    | .error e => .error e
    | .ok st1 => analyze right st1
  | .Minus left right, st =>
    match analyze left st with
    | .error e => .error e
    | .ok st1 => analyze right st1
  | .LtGt left right, st =>
    match analyze left st with
    | .error e => .error e
    | .ok st1 => analyze right st1
  | .And left right, st =>
    match analyze left st with
    | .error e => .error e
    | .ok st1 => analyze right st1
  | .Or left right, st =>
    match analyze left st with
    | .error e => .error e
    | .ok st1 => analyze right st1
  | .Not v, st => analyze v st
  | _, st => .ok st

/-- The `for statement in ...` loops inside the `Fn` and `Block` arms of
`analyze`. -/
def analyzeList : List Ast → SymbolTable → Except AErr SymbolTable
  | [], st => .ok st
  | s :: rest, st =>
    match analyze s st with
    | .error e => .error e
    | .ok st1 => analyzeList rest st1

end

end Bee

namespace Bee

/-- The operand-evaluation block `code_gen` repeats for the left (`reg = 1`) and
right (`reg = 2`) operand of `Plus` and `Minus` (`main.rs` lines 169-209,
229-269): an integer literal is loaded with `LoadImm`, a name is resolved
against the variable list and loaded from its slot.  Returns the pushed
opcodes. -/
def intOperand (reg : Nat) (operand : Ast) (st : SymbolTable) :
    Except CErr (List OpCode) :=
  match operand with
  | .Int v => .ok [.LoadImm reg v]
  | .Name n =>
    match position (fun v => v.name == n) st.vars with
    | some var_index => .ok [.Load reg var_index]
    | none => .error .unwrapFailed
  | _ => .error .invalidValue

/-- The operand-evaluation block `code_gen` repeats for the operands of `And`,
`Or` and `Not` (`main.rs` lines 289-335, 355-401, 421-443): `True`/`False` are
loaded as the immediates 1/0, a name is loaded from its variable slot. -/
def boolOperand (reg : Nat) (operand : Ast) (st : SymbolTable) :
    Except CErr (List OpCode) :=
  match operand with
  | .UpName n =>
    if n == "True" then .ok [.LoadImm reg 1]
    else if n == "False" then .ok [.LoadImm reg 0]
    else .error .invalidValue
  | .Name n =>
    match position (fun v => v.name == n) st.vars with
    | some var_index => .ok [.Load reg var_index]
    | none => .error .unwrapFailed
  | _ => .error .invalidValue

mutual

/-- `fn code_gen` of `main.rs` (lines 79-551).  The `&mut Vec<OpCode>` becomes
the returned list of opcodes emitted by this call (the caller appends it);
the `&mut SymbolTable` becomes state passing (the `Fn` arm pushes a
`Function` entry). -/
def code_gen : Ast → SymbolTable → Except CErr (SymbolTable × List OpCode)
  | .Const _ _ _, st => .ok (st, [])
  | .Let name _ value, st =>
    match value with
    | .Name var_or_const_name =>
      match st.constants.find? (fun v => v.name == var_or_const_name) with
      | some constant =>
        match position (fun v => v.name == name) st.vars with
        | some target_index =>
          match parseNat constant.value with
          | some cv => .ok (st, [.LoadImm 1 cv, .Store target_index 1])
          | none => .error .unwrapFailed
        | none => .error .unwrapFailed
      | none =>
        match position (fun v => v.name == var_or_const_name) st.vars with
        | some var_index =>
          match position (fun v => v.name == name) st.vars with
          | some target_index =>
            .ok (st, [.Load 1 var_index, .Store target_index 1])
          | none => .error .unwrapFailed
        | none => .error .unwrapFailed
    | .UpName upname =>
      if upname == "True" then
        match position (fun v => v.name == name) st.vars with
        | some target_index => .ok (st, [.StoreImm target_index 1])
        | none => .error .unwrapFailed
      else if upname == "False" then
        match position (fun v => v.name == name) st.vars with
        | some target_index => .ok (st, [.StoreImm target_index 0])
        | none => .error .unwrapFailed
      else .error .invalidValue
    | .Int v =>
      match position (fun v => v.name == name) st.vars with
      | some target_index => .ok (st, [.StoreImm target_index v])
      | none => .error .unwrapFailed
    | .Minus left right =>
      match intOperand 1 left st with
      | .error e => .error e
      | .ok leftOps =>
        match intOperand 2 right st with
        | .error e => .error e
        | .ok rightOps =>
          match position (fun v => v.name == name) st.vars with
          | some target_index =>
            .ok (st, leftOps ++ rightOps ++ [.Sub 3 1 2, .Store target_index 3])
          | none => .error .unwrapFailed
    | .Plus left right =>
      match intOperand 1 left st with
      | .error e => .error e
      | .ok leftOps =>
        match intOperand 2 right st with
        | .error e => .error e
        | .ok rightOps =>
          match position (fun v => v.name == name) st.vars with
          | some target_index =>
            .ok (st, leftOps ++ rightOps ++ [.Add 3 1 2, .Store target_index 3])
          | none => .error .unwrapFailed
    | .And left right =>
      match boolOperand 1 left st with
      | .error e => .error e
      | .ok leftOps =>
        match boolOperand 2 right st with
        | .error e => .error e
        | .ok rightOps =>
          match position (fun v => v.name == name) st.vars with
          | some target_index =>
            .ok (st, leftOps ++ rightOps ++ [.And 3 1 2, .Store target_index 3])
          | none => .error .unwrapFailed
    | .Or left right =>
      match boolOperand 1 left st with
      | .error e => .error e
      | .ok leftOps =>
        match boolOperand 2 right st with
        | .error e => .error e
        | .ok rightOps =>
          match position (fun v => v.name == name) st.vars with
          | some target_index =>
            .ok (st, leftOps ++ rightOps ++ [.Or 3 1 2, .Store target_index 3])
          | none => .error .unwrapFailed
    | .Not v =>
      match boolOperand 1 v st with
      | .error e => .error e
      | .ok valueOps =>
        match position (fun v => v.name == name) st.vars with
        | some target_index =>
          .ok (st, valueOps ++ [.Not 1, .Store target_index 1])
        | none => .error .unwrapFailed
    | _ => .error .invalidValue
  | .Fn fname body, st =>
    code_genList body { st with functions := st.functions ++ [⟨fname⟩] }
  | .Block statements, st =>
    match code_genList statements st with
    | .error e => .error e
    | .ok (st1, ops) => .ok (st1, ops ++ [.Halt])
  | .Call cname args, st =>
    match cname with
    | "print_integer" =>
      match args.head? with
      | some (.Int v) =>
        -- BUG preserved from the source: the literal value is used directly as
        -- the register index of the Print instruction (`main.rs` line 475-479)
        .ok (st, [.Print v])
      | some (.Name n) =>
        match st.constants.find? (fun v => v.name == n) with
        | some constant =>
          match parseNat constant.value with
          | some cv => .ok (st, [.LoadImm 1 cv, .Print 1])
          | none => .error .unwrapFailed
        | none =>
          match position (fun v => v.name == n) st.vars with
          | some var_index => .ok (st, [.Load 1 var_index, .Print 1])
          | none => .error .unwrapFailed
      | some _ => .error .invalidValue
      | none => .error .noArgs
    | "print_bool" =>
      match args.head? with
      | some (.UpName n) =>
        if n == "True" then .ok (st, [.Print 1])
        else if n == "False" then .ok (st, [.Print 0])
        else .error .invalidValue
      | some (.Name n) =>
        match st.constants.find? (fun v => v.name == n) with
        | some constant =>
          match parseNat constant.value with
          | some cv => .ok (st, [.LoadImm 1 cv, .Print 1])
          | none => .error .unwrapFailed
        | none =>
          match position (fun v => v.name == n) st.vars with
          | some var_index => .ok (st, [.Load 1 var_index, .Print 1])
          | none => .error .unwrapFailed
      | some _ => .error .invalidValue
      | none => .error .noArgs
    | _ => .error .invalidFunctionName
  | _, _ => .error .invalidCode

/-- The `for statement in ...` loops inside the `Fn` and `Block` arms of
`code_gen`; the emitted opcode lists are concatenated in order. -/
def code_genList : List Ast → SymbolTable → Except CErr (SymbolTable × List OpCode)
  | [], st => .ok (st, [])
  | s :: rest, st =>
    match code_gen s st with
    | .error e => .error e
    | .ok (st1, ops1) =>
      match code_genList rest st1 with
      | .error e => .error e
      | .ok (st2, ops2) => .ok (st2, ops1 ++ ops2)

end

/-- `usize` is 64 bits wide on the host. -/
def USIZE : Nat := 2 ^ 64

/-- The state of `fn interpret` of `main.rs`: `let mut registers = [0; 32]`,
`let mut variables: HashMap<usize, usize>`, and the standard-output lines
printed so far. -/
structure VmState where
  regs : Nat → Nat
  varStore : Nat → Option Nat
  out : List String

/-- Read `registers[i]`; indexing out of bounds (≥ 32) is the Rust panic. -/
def regGet (s : VmState) (i : Nat) : Option Nat :=
  if i < 32 then some (s.regs i) else none

/-- Write `registers[i]`; indexing out of bounds (≥ 32) is the Rust panic. -/
def regSet (s : VmState) (i v : Nat) : Option VmState :=
  if i < 32 then some { s with regs := fun j => if j == i then v else s.regs j }
  else none

/-- `variables.insert(k, v)`. -/
def varInsert (s : VmState) (k v : Nat) : VmState :=
  { s with varStore := fun j => if j == k then some v else s.varStore j }

/-- One non-`Halt` step of the fetch-execute loop of `interpret`
(`main.rs` lines 37-70).  `usize` addition and subtraction wrap modulo
`2 ^ 64` (release-build semantics).  `None` is a VM panic: register index out
of bounds, or `variables.get(..).unwrap()` on a never-stored slot. -/
def exec1 : OpCode → VmState → Option VmState
  | .Add arg1 arg2 arg3, s =>
    match regGet s arg2, regGet s arg3 with
    | some x, some y => regSet s arg1 ((x + y) % USIZE)
    | _, _ => none
  | .Sub arg1 arg2 arg3, s =>
    match regGet s arg2, regGet s arg3 with
    | some x, some y => regSet s arg1 ((USIZE + x - y % USIZE) % USIZE)
    | _, _ => none
  | .And arg1 arg2 arg3, s =>
    match regGet s arg2, regGet s arg3 with
    | some x, some y => regSet s arg1 (x.land y)
    | _, _ => none
  | .Or arg1 arg2 arg3, s =>
    match regGet s arg2, regGet s arg3 with
    | some x, some y => regSet s arg1 (x.lor y)
    | _, _ => none
  | .Not value, s =>
    match regGet s value with
    | some x => regSet s value (x.xor 1)
    | none => none
  | .Load arg1 arg2, s =>
    match s.varStore arg2 with
    | some v => regSet s arg1 v
    | none => none
  | .LoadImm arg1 arg2, s => regSet s arg1 arg2
  | .Move arg1 arg2, s =>
    match regGet s arg2 with
    | some v => regSet s arg1 v
    | none => none
  | .Store arg1 arg2, s =>
    match regGet s arg2 with
    | some v => some (varInsert s arg1 v)
    | none => none
  | .StoreImm arg1 arg2, s => some (varInsert s arg1 arg2)
  | .Print arg1, s =>
    match regGet s arg1 with
    | some v => some { s with out := s.out ++ [toString v] }
    | none => none
  | .Halt, _ => none  -- unreachable: `Halt` is handled by the loop itself

/-- Is this opcode `Halt`? -/
def OpCode.isHalt : OpCode → Bool
  | .Halt => true
  | _ => false

/-- The fetch-execute loop of `interpret`.  Since no instruction modifies the
program counter other than `pc += 1`, the loop over `op_codes[pc]` is the
structural recursion over the remaining instruction suffix; an empty suffix is
the out-of-bounds `op_codes[pc]` panic.  Returns the output lines and the
number of instructions fetched (the `Halt` included). -/
def interpretGo : List OpCode → VmState → Nat → Option (List String × Nat)
  | [], _, _ => none
  | op :: rest, s, steps =>
    if op.isHalt then some (s.out, steps + 1)
    else
      match exec1 op s with
      | some s2 => interpretGo rest s2 (steps + 1)
      | none => none

/-- `fn interpret` of `main.rs` (lines 31-77): registers all 0, variable store
empty, pc = 0. -/
def interpret (op_codes : List OpCode) : Option (List String × Nat) :=
  interpretGo op_codes ⟨fun _ => 0, fun _ => none, []⟩ 0

/-- The pipeline of `fn main` (`main.rs` lines 10-28) from the parsed AST on:
analysis, code generation on the same symbol table, then interpretation.
Returns the printed output lines. -/
def pipeline (ast : Ast) : Option (List String) :=
  match analyze ast ⟨[], [], []⟩ with
  | .error _ => none
  | .ok st =>
    match code_gen ast st with
    | .error _ => none
    | .ok (_, op_codes) =>
      match interpret op_codes with
      | some (out, _) => some out
      | none => none

end Bee

/-- End-to-end scenario A of the specification, as parsed from the surface
syntax (the spec writes the builtins `add`/`sub` for the source operators
`+`/`-`, which the parser turns into `Plus`/`Minus` nodes). -/
def scenarioA : Ast :=
  .Block [
    .Const "ctest" "Integer" (.Int 5),
    .Fn "main" [
      .Let "one" "Integer" (.Int 1),
      .Let "five" "Integer" (.Plus (.Name "one") (.Int 4)),
      .Let "itest" "Integer" (.Minus (.Name "five") (.Int 4)),
      .Let "ctest_add" "Integer" (.Plus (.Int 1) (.Name "ctest")),
      .Call "print_integer" [.Name "itest"],
      .Call "print_integer" [.Name "ctest_add"]]]

/-- Scenario A with the constant reference `ctest` replaced by its literal
value 5 at the single reference site. -/
def scenarioAInlined : Ast :=
  .Block [
    .Const "ctest" "Integer" (.Int 5),
    .Fn "main" [
      .Let "one" "Integer" (.Int 1),
      .Let "five" "Integer" (.Plus (.Name "one") (.Int 4)),
      .Let "itest" "Integer" (.Minus (.Name "five") (.Int 4)),
      .Let "ctest_add" "Integer" (.Plus (.Int 1) (.Int 5)),
      .Call "print_integer" [.Name "itest"],
      .Call "print_integer" [.Name "ctest_add"]]]

namespace CG

/-- `struct Variable` of `code_gen.rs`. -/
structure Variable where
  name : String
  type_annot : String
deriving DecidableEq, Repr

/-- `struct Constant` of `code_gen.rs`. -/
structure Constant where
  name : String
  type_annot : String
  value : String
deriving DecidableEq, Repr

/-- `struct Function` of `code_gen.rs`: here each function owns its variable
list. -/
structure Function where
  name : String
  vars : List Variable   -- `variables` in the source
deriving DecidableEq, Repr

/-- `struct SymbolTable` of `code_gen.rs`. -/
structure SymbolTable where
  functions : List Function
  constants : List Constant
deriving DecidableEq, Repr

/-- `enum OpCode` of `opcode.rs`.  The `LoadFloatConst`/`StoreFloatConst`
variants are not modelled: `ast.rs` defines no float literal node, so no arm of
`code_gen.rs` that survives the embedding can emit them. -/
inductive OpCode where
  | And (arg1 arg2 arg3 : Nat)
  | Or (arg1 arg2 arg3 : Nat)
  | Not (value : Nat)
  | Add (arg1 arg2 arg3 : Nat)
  | Sub (arg1 arg2 arg3 : Nat)
  | Concat (arg1 arg2 arg3 : Nat)
  | Load (arg1 arg2 : Nat)
  | LoadIntConst (arg1 arg2 : Nat)
  | LoadStringConst (arg1 : Nat) (arg2 : String)
  | Move (arg1 arg2 : Nat)
  | Store (arg1 arg2 : Nat)
  | StoreIntConst (arg1 arg2 : Nat)
  | StoreStringConst (arg1 : Nat) (arg2 : String)
  | Print (arg1 : Nat)
  | Halt
deriving DecidableEq, Repr

/-- `struct Function` of `ast.rs` (a parsed function: name and body). -/
structure AstFunction where
  name : String
  body : List Ast

/-- `struct Constant` of `ast.rs` (a parsed constant: its value is still an
AST node). -/
structure AstConstant where
  name : String
  type_annot : String
  value : Ast

/-- `struct Document` of `ast.rs`. -/
structure Document where
  constants : List AstConstant
  functions : List AstFunction

/-- `symbol_table.functions.last().unwrap().variables.iter().position(|v| v.name == name).unwrap()`,
the slot lookup `code_gen.rs` repeats at every load/store site.  `none` is a
panicking `unwrap`. -/
def varIndex (st : SymbolTable) (name : String) : Option Nat :=
  match st.functions.getLast? with
  | some f => position (fun v => v.name == name) f.vars
  | none => none

/-- The operand evaluation of the `"add"` builtin (`code_gen.rs` lines
188-249), parameterised by the scratch register (1 for `args.first()`, 2 for
`args.last()`).  Returns the register index used in the `Add` opcode and the
emitted loads.  An integer literal contributes its own VALUE as the register
index and emits nothing — preserved from the source. -/
def addOperand (reg : Nat) (arg : Ast) (st : SymbolTable) :
    Except CErr (Nat × List OpCode) :=
  match arg with
  | .Int v => .ok (v, [])
  | .Name n =>
    match st.constants.find? (fun c => c.name == n) with
    | some constant =>
      match parseNat constant.value with
      | some cv => .ok (reg, [.LoadIntConst reg cv])
      | none => .error .unwrapFailed
    | none =>
      match varIndex st n with
      | some idx => .ok (reg, [.Load reg idx])
      | none => .error .unwrapFailed
  | _ => .error .invalidValue

/-- The operand evaluation of the `"sub"` builtin (`code_gen.rs` lines
269-316): like `addOperand`, but a constant reference contributes its PARSED
VALUE as the register index and emits no load at all — preserved from the
source. -/
def subOperand (reg : Nat) (arg : Ast) (st : SymbolTable) :
    Except CErr (Nat × List OpCode) :=
  match arg with
  | .Int v => .ok (v, [])
  | .Name n =>
    match st.constants.find? (fun c => c.name == n) with
    | some constant =>
      match parseNat constant.value with
      | some cv => .ok (cv, [])
      | none => .error .unwrapFailed
    | none =>
      match varIndex st n with
      | some idx => .ok (reg, [.Load reg idx])
      | none => .error .unwrapFailed
  | _ => .error .invalidValue

/-- The operand evaluation of the `"concat"` builtin (`code_gen.rs` lines
518-589): string literals and constants are loaded properly into the scratch
register. -/
def concatOperand (reg : Nat) (arg : Ast) (st : SymbolTable) :
    Except CErr (Nat × List OpCode) :=
  match arg with
  | .String v => .ok (reg, [.LoadStringConst reg v])
  | .Name n =>
    match st.constants.find? (fun c => c.name == n) with
    | some constant => .ok (reg, [.LoadStringConst reg constant.value])
    | none =>
      match varIndex st n with
      | some idx => .ok (reg, [.Load reg idx])
      | none => .error .unwrapFailed
  | _ => .error .invalidValue

/-- The operand evaluation of the `"and"`/`"or"`/`"not"` builtins
(`code_gen.rs` lines 609-664, 684-739, 759-786): the literals `True`/`False`
contribute 1/0 as the register index with no load, and a constant reference
contributes its parsed value as the register index with no load — preserved
from the source. -/
def boolOperand (reg : Nat) (arg : Ast) (st : SymbolTable) :
    Except CErr (Nat × List OpCode) :=
  match arg with
  | .UpName n =>
    if n == "True" then .ok (1, [])
    else if n == "False" then .ok (0, [])
    else .error .invalidValue
  | .Name n =>
    match st.constants.find? (fun c => c.name == n) with
    | some constant =>
      match parseNat constant.value with
      | some cv => .ok (cv, [])
      | none => .error .unwrapFailed
    | none =>
      match varIndex st n with
      | some idx => .ok (reg, [.Load reg idx])
      | none => .error .unwrapFailed
  | _ => .error .invalidValue

mutual

/-- `pub fn code_gen` of `code_gen.rs` (lines 43-965).  The `&mut SymbolTable`
and `&mut Vec<OpCode>` become explicit state passing: the result carries the
table (which no arm ever writes) and the opcode vector with this call's pushes
appended.  The `add_float`/`sub_float`/`print_float` arms are not modelled
(they pattern-match the nonexistent `Float` AST node and emit the unmodelled
float opcodes); with them absent those builtin names fall through to the
`panic!("Invalid function name")` arm. -/
def code_gen : Ast → SymbolTable → List OpCode → Except CErr (SymbolTable × List OpCode)
  | .Let name _ value, st, op_codes =>
    match value with
    | .Name var_or_const_name =>
      match st.constants.find? (fun v => v.name == var_or_const_name) with
      | some constant =>
        match varIndex st name with
        | some target_index =>
          match parseNat constant.value with
          | some cv =>
            .ok (st, op_codes ++ [.LoadIntConst 1 cv, .Store target_index 1])
          | none => .error .unwrapFailed
        | none => .error .unwrapFailed
      | none =>
        match varIndex st var_or_const_name with
        | some var_index =>
          match varIndex st name with
          | some target_index =>
            .ok (st, op_codes ++ [.Load 1 var_index, .Store target_index 1])
          | none => .error .unwrapFailed
        | none => .error .unwrapFailed
    | .UpName upname =>
      if upname == "True" then
        match varIndex st name with
        | some target_index => .ok (st, op_codes ++ [.StoreIntConst target_index 1])
        | none => .error .unwrapFailed
      else if upname == "False" then
        match varIndex st name with
        | some target_index => .ok (st, op_codes ++ [.StoreIntConst target_index 0])
        | none => .error .unwrapFailed
      else .error .invalidValue
    | .Int v =>
      match varIndex st name with
      | some target_index => .ok (st, op_codes ++ [.StoreIntConst target_index v])
      | none => .error .unwrapFailed
    | .String v =>
      match varIndex st name with
      | some target_index => .ok (st, op_codes ++ [.StoreStringConst target_index v])
      | none => .error .unwrapFailed
    | .Call calling_fn_name args =>
      match calling_fn_name with
      | "add" =>
        match args.head? with
        | none => .error .unwrapFailed
        | some firstArg =>
          match addOperand 1 firstArg st with
          | .error e => .error e
          | .ok (arg1, ops1) =>
            match args.getLast? with
            | none => .error .unwrapFailed
            | some lastArg =>
              match addOperand 2 lastArg st with
              | .error e => .error e
              | .ok (arg2, ops2) =>
                match varIndex st name with
                | some target_index =>
                  .ok (st, op_codes ++ (ops1 ++ (ops2 ++
                    [.Add 3 arg1 arg2, .Store target_index 3])))
                | none => .error .unwrapFailed
      | "sub" =>
        match args.head? with
        | none => .error .unwrapFailed
        | some firstArg =>
          match subOperand 1 firstArg st with
          | .error e => .error e
          | .ok (arg1, ops1) =>
            match args.getLast? with
            | none => .error .unwrapFailed
            | some lastArg =>
              match subOperand 2 lastArg st with
              | .error e => .error e
              | .ok (arg2, ops2) =>
                match varIndex st name with
                | some target_index =>
                  .ok (st, op_codes ++ (ops1 ++ (ops2 ++
                    [.Sub 3 arg1 arg2, .Store target_index 3])))
                | none => .error .unwrapFailed
      | "concat" =>
        match args.head? with
        | none => .error .unwrapFailed
        | some firstArg =>
          match concatOperand 1 firstArg st with
          | .error e => .error e
          | .ok (arg1, ops1) =>
            match args.getLast? with
            | none => .error .unwrapFailed
            | some lastArg =>
              match concatOperand 2 lastArg st with
              | .error e => .error e
              | .ok (arg2, ops2) =>
                match varIndex st name with
                | some target_index =>
                  .ok (st, op_codes ++ (ops1 ++ (ops2 ++
                    [.Concat 3 arg1 arg2, .Store target_index 3])))
                | none => .error .unwrapFailed
      | "and" =>
        match args.head? with
        | none => .error .unwrapFailed
        | some firstArg =>
          match boolOperand 1 firstArg st with
          | .error e => .error e
          | .ok (arg1, ops1) =>
            match args.getLast? with
            | none => .error .unwrapFailed
            | some lastArg =>
              match boolOperand 2 lastArg st with
              | .error e => .error e
              | .ok (arg2, ops2) =>
                match varIndex st name with
                | some target_index =>
                  .ok (st, op_codes ++ (ops1 ++ (ops2 ++
                    [.And 3 arg1 arg2, .Store target_index 3])))
                | none => .error .unwrapFailed
      | "or" =>
        match args.head? with
        | none => .error .unwrapFailed
        | some firstArg =>
          match boolOperand 1 firstArg st with
          | .error e => .error e
          | .ok (arg1, ops1) =>
            match args.getLast? with
            | none => .error .unwrapFailed
            | some lastArg =>
              match boolOperand 2 lastArg st with
              | .error e => .error e
              | .ok (arg2, ops2) =>
                match varIndex st name with
                | some target_index =>
                  .ok (st, op_codes ++ (ops1 ++ (ops2 ++
                    [.Or 3 arg1 arg2, .Store target_index 3])))
                | none => .error .unwrapFailed
      | "not" =>
        match args.head? with
        | none => .error .unwrapFailed
        | some firstArg =>
          match boolOperand 1 firstArg st with
          | .error e => .error e
          | .ok (value, opsV) =>
            match varIndex st name with
            | some target_index =>
              .ok (st, op_codes ++ (opsV ++ [.Not value, .Store target_index 1]))
            | none => .error .unwrapFailed
      | _ => .error .invalidFunctionName
    | _ => .error .invalidValue
  | .Block statements, st, op_codes => code_genList statements st op_codes
  | .Call cname args, st, op_codes =>
    match cname with
    | "print_integer" =>
      match args.head? with
      | some (.Int v) => .ok (st, op_codes ++ [.LoadIntConst 1 v, .Print 1])
      | some (.Name n) =>
        match st.constants.find? (fun c => c.name == n) with
        | some constant =>
          match parseNat constant.value with
          | some cv => .ok (st, op_codes ++ [.LoadIntConst 1 cv, .Print 1])
          | none => .error .unwrapFailed
        | none =>
          match varIndex st n with
          | some var_index => .ok (st, op_codes ++ [.Load 1 var_index, .Print 1])
          | none => .error .unwrapFailed
      | some _ => .error .invalidValue
      | none => .error .noArgs
    | "print_bool" =>
      match args.head? with
      | some (.UpName n) =>
        -- BUG preserved from the source (`code_gen.rs` lines 892-900): no
        -- instruction evaluates the literal; `Print` is given register 1 for
        -- `True` and register 0 for `False`.
        if n == "True" then .ok (st, op_codes ++ [.Print 1])
        else if n == "False" then .ok (st, op_codes ++ [.Print 0])
        else .error .invalidValue
      | some (.Name n) =>
        match st.constants.find? (fun c => c.name == n) with
        | some constant =>
          match parseNat constant.value with
          | some cv => .ok (st, op_codes ++ [.LoadIntConst 1 cv, .Print 1])
          | none => .error .unwrapFailed
        | none =>
          match varIndex st n with
          | some var_index => .ok (st, op_codes ++ [.Load 1 var_index, .Print 1])
          | none => .error .unwrapFailed
      | some _ => .error .invalidValue
      | none => .error .noArgs
    | "print_string" =>
      match args.head? with
      | some (.String v) => .ok (st, op_codes ++ [.LoadStringConst 1 v, .Print 1])
      | some (.Name n) =>
        -- `print_string` never consults the constants list (lines 940-948)
        match varIndex st n with
        | some var_index => .ok (st, op_codes ++ [.Load 1 var_index, .Print 1])
        | none => .error .unwrapFailed
      | some _ => .error .invalidValue
      | none => .error .noArgs
    | _ => .error .invalidFunctionName
  | _, _, _ => .error .invalidCode

/-- The statement loops of `code_gen.rs` (`Block` arm and
`code_gen_document`). -/
def code_genList : List Ast → SymbolTable → List OpCode →
    Except CErr (SymbolTable × List OpCode)
  | [], st, op_codes => .ok (st, op_codes)
  | s :: rest, st, op_codes =>
    match code_gen s st op_codes with
    | .error e => .error e
    | .ok (st1, ops1) => code_genList rest st1 ops1

end

/-- `pub fn code_gen_document` of `code_gen.rs` (lines 27-41): generate the
first (only) function's body, then push the final `Halt`. -/
def code_gen_document (document : Document) (st : SymbolTable)
    (op_codes : List OpCode) : Except CErr (SymbolTable × List OpCode) :=
  match document.functions.head? with
  | none => .error .unwrapFailed
  | some main_function =>
    match code_genList main_function.body st op_codes with
    | .error e => .error e
    | .ok (st1, ops1) => .ok (st1, ops1 ++ [.Halt])

end CG


/-! ## Helper notions used by the verification theorems -/

/-- Build a `Let` statement from a (name, declared type, initializer) triple. -/
def mkLet (p : String × String × Ast) : Ast := .Let p.1 p.2.1 p.2.2

/-- The symbol-table entry `analyze` appends for a `Let` statement. -/
def mkVar (p : String × String × Ast) : Bee.Variable := ⟨p.1, p.2.1⟩

/-- Does this `main.rs` opcode write the variable store at slot `tgt`? -/
def isStoreTo (tgt : Nat) : Bee.OpCode → Bool
  | .Store arg1 _ => arg1 == tgt
  | .StoreImm arg1 _ => arg1 == tgt
  | _ => false

/-- Statements produced by `parse_fn_body`: `Let` bindings and calls. -/
def stmtShape : Ast → Bool
  | .Let _ _ _ => true
  | .Call _ _ => true
  | _ => false

/-- Top-level declarations produced by `parse`: constants, and functions whose
bodies consist of statements. -/
def declShape : Ast → Bool
  | .Const _ _ _ => true
  | .Fn _ body => body.all stmtShape
  | _ => false

/-- The shape of every AST `parse` returns: a block of declarations. -/
def progShape : Ast → Bool
  | .Block decls => decls.all declShape
  | _ => false

namespace Bee

/-- Successful analysis of a `Let` statement appends exactly one variable entry
and changes nothing else, whatever the initializer was. -/
theorem analyze_let_eq (n t : String) (v : Ast) (st st2 : SymbolTable)
    (h : analyze (.Let n t v) st = .ok st2) :
    st2 = { st with vars := st.vars ++ [⟨n, t⟩] } := by
  simp only [analyze] at h
  split at h
  · exact absurd h (by simp)
  · exact (Except.ok.inj h).symm

/-- Successful analysis of a list of `Let` statements appends their variable
entries in statement order and changes nothing else. -/
theorem analyzeList_lets_eq (lets : List (String × String × Ast))
    (st st2 : SymbolTable)
    (h : analyzeList (lets.map mkLet) st = .ok st2) :
    st2 = { st with vars := st.vars ++ lets.map mkVar } := by
  induction lets generalizing st with
  | nil =>
    simp only [List.map_nil, analyzeList] at h
    cases Except.ok.inj h
    simp
  | cons p rest ih =>
    simp only [List.map_cons, analyzeList] at h
    split at h
    · exact absurd h (by simp)
    · case _ st1 heq =>
      have h1 := analyze_let_eq p.1 p.2.1 p.2.2 st st1 heq
      subst h1
      have h2 := ih _ h
      simp only [h2, List.map_cons]
      simp [mkVar, List.append_assoc]

/-- In a list of variables with pairwise-distinct names, the first position of
the `i`-th entry's name is `i`. -/
theorem position_get_of_nodup (vs : List Bee.Variable)
    (hnd : (vs.map (fun v => v.name)).Nodup) (i : Nat) (hi : i < vs.length) :
    position (fun v => v.name == (vs.get ⟨i, hi⟩).name) vs = some i := by
  induction vs generalizing i with
  | nil => exact absurd hi (by simp)
  | cons a l ih =>
    simp only [List.map_cons, List.nodup_cons] at hnd
    cases i with
    | zero => simp [position]
    | succ j =>
      have hj : j < l.length := by simpa using hi
      have hmem : (l.get ⟨j, hj⟩) ∈ l := l.get_mem j hj
      have hne : (a.name == (l.get ⟨j, hj⟩).name) = false := by
        rw [beq_eq_false_iff_ne]
        intro he
        exact hnd.1 (he ▸ List.mem_map_of_mem (fun v => v.name) hmem)
      show position (fun v => v.name == (l.get ⟨j, hj⟩).name) (a :: l) = some (j + 1)
      simp only [position]
      rw [if_neg (by simpa [List.get_eq_getElem] using hne), ih hnd.2 j hj]
      rfl

/-- Every successful code generation for a `Let` statement ends with a store
instruction targeting the slot `position` finds for the statement's name, for
every initializer shape. -/
theorem code_gen_let_store (n t : String) (v : Ast) (st st2 : SymbolTable)
    (em : List OpCode) (h : code_gen (.Let n t v) st = .ok (st2, em)) :
    ∃ pre tgt instr, position (fun vv => vv.name == n) st.vars = some tgt ∧
      em = pre ++ [instr] ∧ isStoreTo tgt instr = true := by
  cases v with
  | Name m =>
    simp only [code_gen] at h
    cases hfind : st.constants.find? (fun vv => vv.name == m) with
    | some c =>
      simp only [hfind] at h
      cases hpos : position (fun vv => vv.name == n) st.vars with
      | some tgt =>
        simp only [hpos] at h
        cases hparse : parseNat c.value with
        | some cv =>
          simp only [hparse] at h
          obtain ⟨h1, h2⟩ := Prod.mk.inj (Except.ok.inj h)
          exact ⟨[.LoadImm 1 cv], tgt, .Store tgt 1, rfl, h2.symm, by simp [isStoreTo]⟩
        | none => simp only [hparse] at h; exact absurd h (by simp)
      | none => simp only [hpos] at h; exact absurd h (by simp)
    | none =>
      simp only [hfind] at h
      cases hvar : position (fun vv => vv.name == m) st.vars with
      | some var_index =>
        simp only [hvar] at h
        cases hpos : position (fun vv => vv.name == n) st.vars with
        | some tgt =>
          simp only [hpos] at h
          obtain ⟨h1, h2⟩ := Prod.mk.inj (Except.ok.inj h)
          exact ⟨[.Load 1 var_index], tgt, .Store tgt 1, rfl, h2.symm, by simp [isStoreTo]⟩
        | none => simp only [hpos] at h; exact absurd h (by simp)
      | none => simp only [hvar] at h; exact absurd h (by simp)
  | UpName m =>
    simp only [code_gen] at h
    by_cases hT : (m == "True") = true
    · rw [if_pos hT] at h
      cases hpos : position (fun vv => vv.name == n) st.vars with
      | some tgt =>
        simp only [hpos] at h
        obtain ⟨h1, h2⟩ := Prod.mk.inj (Except.ok.inj h)
        exact ⟨[], tgt, .StoreImm tgt 1, rfl, h2.symm, by simp [isStoreTo]⟩
      | none => simp only [hpos] at h; exact absurd h (by simp)
    · rw [if_neg hT] at h
      by_cases hF : (m == "False") = true
      · rw [if_pos hF] at h
        cases hpos : position (fun vv => vv.name == n) st.vars with
        | some tgt =>
          simp only [hpos] at h
          obtain ⟨h1, h2⟩ := Prod.mk.inj (Except.ok.inj h)
          exact ⟨[], tgt, .StoreImm tgt 0, rfl, h2.symm, by simp [isStoreTo]⟩
        | none => simp only [hpos] at h; exact absurd h (by simp)
      · rw [if_neg hF] at h; exact absurd h (by simp)
  | Int w =>
    simp only [code_gen] at h
    cases hpos : position (fun vv => vv.name == n) st.vars with
    | some tgt =>
      simp only [hpos] at h
      obtain ⟨h1, h2⟩ := Prod.mk.inj (Except.ok.inj h)
      exact ⟨[], tgt, .StoreImm tgt w, rfl, h2.symm, by simp [isStoreTo]⟩
    | none => simp only [hpos] at h; exact absurd h (by simp)
  | Minus left right =>
    simp only [code_gen] at h
    cases hl : intOperand 1 left st with
    | error e => simp only [hl] at h; exact absurd h (by simp)
    | ok leftOps =>
      simp only [hl] at h
      cases hr : intOperand 2 right st with
      | error e => simp only [hr] at h; exact absurd h (by simp)
      | ok rightOps =>
        simp only [hr] at h
        cases hpos : position (fun vv => vv.name == n) st.vars with
        | some tgt =>
          simp only [hpos] at h
          obtain ⟨h1, h2⟩ := Prod.mk.inj (Except.ok.inj h)
          refine ⟨leftOps ++ (rightOps ++ [.Sub 3 1 2]), tgt, .Store tgt 3, rfl, ?_,
            by simp [isStoreTo]⟩
          rw [← h2]; simp
        | none => simp only [hpos] at h; exact absurd h (by simp)
  | Plus left right =>
    simp only [code_gen] at h
    cases hl : intOperand 1 left st with
    | error e => simp only [hl] at h; exact absurd h (by simp)
    | ok leftOps =>
      simp only [hl] at h
      cases hr : intOperand 2 right st with
      | error e => simp only [hr] at h; exact absurd h (by simp)
      | ok rightOps =>
        simp only [hr] at h
        cases hpos : position (fun vv => vv.name == n) st.vars with
        | some tgt =>
          simp only [hpos] at h
          obtain ⟨h1, h2⟩ := Prod.mk.inj (Except.ok.inj h)
          refine ⟨leftOps ++ (rightOps ++ [.Add 3 1 2]), tgt, .Store tgt 3, rfl, ?_,
            by simp [isStoreTo]⟩
          rw [← h2]; simp
        | none => simp only [hpos] at h; exact absurd h (by simp)
  | And left right =>
    simp only [code_gen] at h
    cases hl : boolOperand 1 left st with
    | error e => simp only [hl] at h; exact absurd h (by simp)
    | ok leftOps =>
      simp only [hl] at h
      cases hr : boolOperand 2 right st with
      | error e => simp only [hr] at h; exact absurd h (by simp)
      | ok rightOps =>
        simp only [hr] at h
        cases hpos : position (fun vv => vv.name == n) st.vars with
        | some tgt =>
          simp only [hpos] at h
          obtain ⟨h1, h2⟩ := Prod.mk.inj (Except.ok.inj h)
          refine ⟨leftOps ++ (rightOps ++ [.And 3 1 2]), tgt, .Store tgt 3, rfl, ?_,
            by simp [isStoreTo]⟩
          rw [← h2]; simp
        | none => simp only [hpos] at h; exact absurd h (by simp)
  | Or left right =>
    simp only [code_gen] at h
    cases hl : boolOperand 1 left st with
    | error e => simp only [hl] at h; exact absurd h (by simp)
    | ok leftOps =>
      simp only [hl] at h
      cases hr : boolOperand 2 right st with
      | error e => simp only [hr] at h; exact absurd h (by simp)
      | ok rightOps =>
        simp only [hr] at h
        cases hpos : position (fun vv => vv.name == n) st.vars with
        | some tgt =>
          simp only [hpos] at h
          obtain ⟨h1, h2⟩ := Prod.mk.inj (Except.ok.inj h)
          refine ⟨leftOps ++ (rightOps ++ [.Or 3 1 2]), tgt, .Store tgt 3, rfl, ?_,
            by simp [isStoreTo]⟩
          rw [← h2]; simp
        | none => simp only [hpos] at h; exact absurd h (by simp)
  | Not w =>
    simp only [code_gen] at h
    cases hl : boolOperand 1 w st with
    | error e => simp only [hl] at h; exact absurd h (by simp)
    | ok valueOps =>
      simp only [hl] at h
      cases hpos : position (fun vv => vv.name == n) st.vars with
      | some tgt =>
        simp only [hpos] at h
        obtain ⟨h1, h2⟩ := Prod.mk.inj (Except.ok.inj h)
        refine ⟨valueOps ++ [.Not 1], tgt, .Store tgt 1, rfl, ?_, by simp [isStoreTo]⟩
        rw [← h2]; simp
      | none => simp only [hpos] at h; exact absurd h (by simp)
  | Const a b c => simp only [code_gen] at h; exact absurd h (by simp)
  | Let a b c => simp only [code_gen] at h; exact absurd h (by simp)
  | String a => simp only [code_gen] at h; exact absurd h (by simp)
  | LtGt a b => simp only [code_gen] at h; exact absurd h (by simp)
  | Fn a b => simp only [code_gen] at h; exact absurd h (by simp)
  | Call a b => simp only [code_gen] at h; exact absurd h (by simp)
  | Block a => simp only [code_gen] at h; exact absurd h (by simp)

end Bee

/-- The symbol table produced by analyzing the duplicate-name program of the C4
counterexample. -/
def stDup : Bee.SymbolTable :=
  ⟨[⟨"x", "Integer"⟩, ⟨"x", "Integer"⟩], [⟨"main"⟩], []⟩

/-- The duplicate-name program: two `let x` bindings in one function. -/
def astDup : Ast :=
  .Block [.Fn "main" [.Let "x" "Integer" (.Int 1), .Let "x" "Integer" (.Int 2)]]

/-- Claim C4, counterexample: the program `fn main { let x: Integer = 1
let x: Integer = 2 }` passes analysis (duplicate names are not rejected), the
second `Let` statement's variable entry occupies slot 1, yet the store the
generator emits for it targets slot 0 — `position` resolves to the first
matching entry.  This refutes "the same slot index is used by every load/store
instruction the generator emits for that variable" for the claim's unrestricted
quantification over analysis-passing programs. -/
theorem claim_c4_counterexample :
    Bee.analyze astDup ⟨[], [], []⟩ = .ok stDup ∧
    Bee.code_gen astDup stDup =
      .ok (⟨stDup.vars, [⟨"main"⟩, ⟨"main"⟩], []⟩,
           [.StoreImm 0 1, .StoreImm 0 2, .Halt]) ∧
    (0 : Nat) ≠ 1 := by
  refine ⟨by decide, by decide, by decide⟩

/-- Claim C4 (amended): provided the function's `Let` names are pairwise
distinct, analysis assigns the `i`-th `Let` statement the variable-list entry
at index `i` (slot assignment is declaration order, independent of the types
involved), the name resolves by `position` to slot `i`, and the store
instruction ending the code generated for that statement targets slot `i`. -/
theorem claim_c4_amended (lets : List (String × String × Ast))
    (h1 : (lets.map (fun p => p.1)).Nodup)
    (st1 : Bee.SymbolTable)
    (h2 : Bee.analyzeList (lets.map mkLet) ⟨[], [], []⟩ = .ok st1)
    (i : Nat) (hi : i < lets.length) :
    st1.vars = lets.map mkVar ∧
    position (fun v => v.name == (lets.get ⟨i, hi⟩).1) st1.vars = some i ∧
    (∀ st2 em, Bee.code_gen (mkLet (lets.get ⟨i, hi⟩)) st1 = .ok (st2, em) →
      ∃ pre instr, em = pre ++ [instr] ∧ isStoreTo i instr = true) := by
  have hst := Bee.analyzeList_lets_eq lets _ _ h2
  subst hst
  have hvars : ({ vars := [] ++ lets.map mkVar, functions := [], constants := [] } :
      Bee.SymbolTable).vars = lets.map mkVar := by simp
  have hilen : i < (lets.map mkVar).length := by simpa using hi
  have hget : ((lets.map mkVar).get ⟨i, hilen⟩).name = (lets.get ⟨i, hi⟩).1 := by
    simp [mkVar]
  have hnd2 : ((lets.map mkVar).map (fun v => v.name)).Nodup := by
    simpa [Function.comp, mkVar] using h1
  have hposi :
      position (fun v => v.name == (lets.get ⟨i, hi⟩).1) (lets.map mkVar) = some i := by
    have := Bee.position_get_of_nodup (lets.map mkVar) hnd2 i hilen
    rwa [hget] at this
  refine ⟨hvars, by simpa using hposi, ?_⟩
  intro st2 em h
  obtain ⟨pre, tgt, instr, hposn, hem, hstore⟩ :=
    Bee.code_gen_let_store (lets.get ⟨i, hi⟩).1 (lets.get ⟨i, hi⟩).2.1
      (lets.get ⟨i, hi⟩).2.2 _ st2 em h
  have : tgt = i := by
    have hp2 : some tgt = some i := by
      rw [← hposn]
      simpa using hposi
    exact Option.some.inj hp2
  subst this
  exact ⟨pre, instr, hem, hstore⟩

/-- Claim C4, witness: the amended theorem applied to the concrete two-binding
program `let a: Integer = 1; let b: Integer = 2` at index 1. -/
theorem claim_c4_witness :
    ((([("a", "Integer", Ast.Int 1), ("b", "Integer", Ast.Int 2)].map
        (fun p => p.1)).Nodup) ∧
     Bee.analyzeList ([("a", "Integer", Ast.Int 1), ("b", "Integer", Ast.Int 2)].map mkLet)
        ⟨[], [], []⟩ = .ok ⟨[⟨"a", "Integer"⟩, ⟨"b", "Integer"⟩], [], []⟩) ∧
    (((⟨[⟨"a", "Integer"⟩, ⟨"b", "Integer"⟩], [], []⟩ : Bee.SymbolTable).vars =
        [("a", "Integer", Ast.Int 1), ("b", "Integer", Ast.Int 2)].map mkVar) ∧
     position (fun v => v.name == "b")
        (⟨[⟨"a", "Integer"⟩, ⟨"b", "Integer"⟩], [], []⟩ : Bee.SymbolTable).vars = some 1 ∧
     (∀ st2 em,
        Bee.code_gen (mkLet ("b", "Integer", Ast.Int 2))
          ⟨[⟨"a", "Integer"⟩, ⟨"b", "Integer"⟩], [], []⟩ = .ok (st2, em) →
        ∃ pre instr, em = pre ++ [instr] ∧ isStoreTo 1 instr = true)) :=
  ⟨⟨by decide, by decide⟩,
   claim_c4_amended [("a", "Integer", Ast.Int 1), ("b", "Integer", Ast.Int 2)]
     (by decide) ⟨[⟨"a", "Integer"⟩, ⟨"b", "Integer"⟩], [], []⟩ (by decide) 1 (by decide)⟩

namespace Bee

/-- `intOperand` never emits `Halt`. -/
theorem intOperand_noHalt (reg : Nat) (a : Ast) (st : SymbolTable) (l : List OpCode)
    (h : intOperand reg a st = .ok l) : ∀ op ∈ l, op.isHalt = false := by
  cases a <;> simp only [intOperand] at h
  case Int v =>
    cases Except.ok.inj h
    intro op hop
    simp at hop
    subst hop
    rfl
  case Name m =>
    cases hp : position (fun v => v.name == m) st.vars with
    | some idx =>
      simp only [hp] at h
      cases Except.ok.inj h
      intro op hop
      simp at hop
      subst hop
      rfl
    | none => simp only [hp] at h; exact absurd h (by simp)
  all_goals exact absurd h (by simp)

/-- `boolOperand` never emits `Halt`. -/
theorem boolOperand_noHalt (reg : Nat) (a : Ast) (st : SymbolTable) (l : List OpCode)
    (h : boolOperand reg a st = .ok l) : ∀ op ∈ l, op.isHalt = false := by
  cases a <;> simp only [boolOperand] at h
  case UpName m =>
    by_cases hT : (m == "True") = true
    · rw [if_pos hT] at h
      cases Except.ok.inj h
      intro op hop
      simp at hop
      subst hop
      rfl
    · rw [if_neg hT] at h
      by_cases hF : (m == "False") = true
      · rw [if_pos hF] at h
        cases Except.ok.inj h
        intro op hop
        simp at hop
        subst hop
        rfl
      · rw [if_neg hF] at h; exact absurd h (by simp)
  case Name m =>
    cases hp : position (fun v => v.name == m) st.vars with
    | some idx =>
      simp only [hp] at h
      cases Except.ok.inj h
      intro op hop
      simp at hop
      subst hop
      rfl
    | none => simp only [hp] at h; exact absurd h (by simp)
  all_goals exact absurd h (by simp)

/-- `code_gen` never emits `Halt` for a `Let` statement. -/
theorem code_gen_let_noHalt (n t : String) (v : Ast) (st st2 : SymbolTable)
    (em : List OpCode) (h : code_gen (.Let n t v) st = .ok (st2, em)) :
    ∀ op ∈ em, op.isHalt = false := by
  cases v with
  | Name m =>
    simp only [code_gen] at h
    cases hfind : st.constants.find? (fun vv => vv.name == m) with
    | some c =>
      simp only [hfind] at h
      cases hpos : position (fun vv => vv.name == n) st.vars with
      | some tgt =>
        simp only [hpos] at h
        cases hparse : parseNat c.value with
        | some cv =>
          simp only [hparse] at h
          obtain ⟨h1, h2⟩ := Prod.mk.inj (Except.ok.inj h)
          subst h2
          intro op hop
          simp only [List.mem_cons, List.not_mem_nil, or_false] at hop
          rcases hop with rfl | rfl <;> rfl
        | none => simp only [hparse] at h; exact absurd h (by simp)
      | none => simp only [hpos] at h; exact absurd h (by simp)
    | none =>
      simp only [hfind] at h
      cases hvar : position (fun vv => vv.name == m) st.vars with
      | some var_index =>
        simp only [hvar] at h
        cases hpos : position (fun vv => vv.name == n) st.vars with
        | some tgt =>
          simp only [hpos] at h
          obtain ⟨h1, h2⟩ := Prod.mk.inj (Except.ok.inj h)
          subst h2
          intro op hop
          simp only [List.mem_cons, List.not_mem_nil, or_false] at hop
          rcases hop with rfl | rfl <;> rfl
        | none => simp only [hpos] at h; exact absurd h (by simp)
      | none => simp only [hvar] at h; exact absurd h (by simp)
  | UpName m =>
    simp only [code_gen] at h
    by_cases hT : (m == "True") = true
    · rw [if_pos hT] at h
      cases hpos : position (fun vv => vv.name == n) st.vars with
      | some tgt =>
        simp only [hpos] at h
        obtain ⟨h1, h2⟩ := Prod.mk.inj (Except.ok.inj h)
        subst h2
        intro op hop
        simp only [List.mem_cons, List.not_mem_nil, or_false] at hop
        subst hop
        rfl
      | none => simp only [hpos] at h; exact absurd h (by simp)
    · rw [if_neg hT] at h
      by_cases hF : (m == "False") = true
      · rw [if_pos hF] at h
        cases hpos : position (fun vv => vv.name == n) st.vars with
        | some tgt =>
          simp only [hpos] at h
          obtain ⟨h1, h2⟩ := Prod.mk.inj (Except.ok.inj h)
          subst h2
          intro op hop
          simp only [List.mem_cons, List.not_mem_nil, or_false] at hop
          subst hop
          rfl
        | none => simp only [hpos] at h; exact absurd h (by simp)
      · rw [if_neg hF] at h; exact absurd h (by simp)
  | Int w =>
    simp only [code_gen] at h
    cases hpos : position (fun vv => vv.name == n) st.vars with
    | some tgt =>
      simp only [hpos] at h
      obtain ⟨h1, h2⟩ := Prod.mk.inj (Except.ok.inj h)
      subst h2
      intro op hop
      simp only [List.mem_cons, List.not_mem_nil, or_false] at hop
      subst hop
      rfl
    | none => simp only [hpos] at h; exact absurd h (by simp)
  | Minus left right =>
    simp only [code_gen] at h
    cases hl : intOperand 1 left st with
    | error e => simp only [hl] at h; exact absurd h (by simp)
    | ok leftOps =>
      simp only [hl] at h
      cases hr : intOperand 2 right st with
      | error e => simp only [hr] at h; exact absurd h (by simp)
      | ok rightOps =>
        simp only [hr] at h
        cases hpos : position (fun vv => vv.name == n) st.vars with
        | some tgt =>
          simp only [hpos] at h
          obtain ⟨h1, h2⟩ := Prod.mk.inj (Except.ok.inj h)
          subst h2
          intro op hop
          simp only [List.mem_append, List.mem_cons, List.not_mem_nil,
            or_false] at hop
          rcases hop with (hmem | hmem) | rfl | rfl
          · exact intOperand_noHalt 1 left st leftOps hl op hmem
          · exact intOperand_noHalt 2 right st rightOps hr op hmem
          · rfl
          · rfl
        | none => simp only [hpos] at h; exact absurd h (by simp)
  | Plus left right =>
    simp only [code_gen] at h
    cases hl : intOperand 1 left st with
    | error e => simp only [hl] at h; exact absurd h (by simp)
    | ok leftOps =>
      simp only [hl] at h
      cases hr : intOperand 2 right st with
      | error e => simp only [hr] at h; exact absurd h (by simp)
      | ok rightOps =>
        simp only [hr] at h
        cases hpos : position (fun vv => vv.name == n) st.vars with
        | some tgt =>
          simp only [hpos] at h
          obtain ⟨h1, h2⟩ := Prod.mk.inj (Except.ok.inj h)
          subst h2
          intro op hop
          simp only [List.mem_append, List.mem_cons, List.not_mem_nil,
            or_false] at hop
          rcases hop with (hmem | hmem) | rfl | rfl
          · exact intOperand_noHalt 1 left st leftOps hl op hmem
          · exact intOperand_noHalt 2 right st rightOps hr op hmem
          · rfl
          · rfl
        | none => simp only [hpos] at h; exact absurd h (by simp)
  | And left right =>
    simp only [code_gen] at h
    cases hl : boolOperand 1 left st with
    | error e => simp only [hl] at h; exact absurd h (by simp)
    | ok leftOps =>
      simp only [hl] at h
      cases hr : boolOperand 2 right st with
      | error e => simp only [hr] at h; exact absurd h (by simp)
      | ok rightOps =>
        simp only [hr] at h
        cases hpos : position (fun vv => vv.name == n) st.vars with
        | some tgt =>
          simp only [hpos] at h
          obtain ⟨h1, h2⟩ := Prod.mk.inj (Except.ok.inj h)
          subst h2
          intro op hop
          simp only [List.mem_append, List.mem_cons, List.not_mem_nil,
            or_false] at hop
          rcases hop with (hmem | hmem) | rfl | rfl
          · exact boolOperand_noHalt 1 left st leftOps hl op hmem
          · exact boolOperand_noHalt 2 right st rightOps hr op hmem
          · rfl
          · rfl
        | none => simp only [hpos] at h; exact absurd h (by simp)
  | Or left right =>
    simp only [code_gen] at h
    cases hl : boolOperand 1 left st with
    | error e => simp only [hl] at h; exact absurd h (by simp)
    | ok leftOps =>
      simp only [hl] at h
      cases hr : boolOperand 2 right st with
      | error e => simp only [hr] at h; exact absurd h (by simp)
      | ok rightOps =>
        simp only [hr] at h
        cases hpos : position (fun vv => vv.name == n) st.vars with
        | some tgt =>
          simp only [hpos] at h
          obtain ⟨h1, h2⟩ := Prod.mk.inj (Except.ok.inj h)
          subst h2
          intro op hop
          simp only [List.mem_append, List.mem_cons, List.not_mem_nil,
            or_false] at hop
          rcases hop with (hmem | hmem) | rfl | rfl
          · exact boolOperand_noHalt 1 left st leftOps hl op hmem
          · exact boolOperand_noHalt 2 right st rightOps hr op hmem
          · rfl
          · rfl
        | none => simp only [hpos] at h; exact absurd h (by simp)
  | Not w =>
    simp only [code_gen] at h
    cases hl : boolOperand 1 w st with
    | error e => simp only [hl] at h; exact absurd h (by simp)
    | ok valueOps =>
      simp only [hl] at h
      cases hpos : position (fun vv => vv.name == n) st.vars with
      | some tgt =>
        simp only [hpos] at h
        obtain ⟨h1, h2⟩ := Prod.mk.inj (Except.ok.inj h)
        subst h2
        intro op hop
        simp only [List.mem_append, List.mem_cons, List.not_mem_nil,
          or_false] at hop
        rcases hop with hmem | rfl | rfl
        · exact boolOperand_noHalt 1 w st valueOps hl op hmem
        · rfl
        · rfl
      | none => simp only [hpos] at h; exact absurd h (by simp)
  | Const a b c => simp only [code_gen] at h; exact absurd h (by simp)
  | Let a b c => simp only [code_gen] at h; exact absurd h (by simp)
  | String a => simp only [code_gen] at h; exact absurd h (by simp)
  | LtGt a b => simp only [code_gen] at h; exact absurd h (by simp)
  | Fn a b => simp only [code_gen] at h; exact absurd h (by simp)
  | Call a b => simp only [code_gen] at h; exact absurd h (by simp)
  | Block a => simp only [code_gen] at h; exact absurd h (by simp)

/-- `code_gen` never emits `Halt` for a call statement. -/
theorem code_gen_call_noHalt (cname : String) (args : List Ast) (st st2 : SymbolTable)
    (em : List OpCode) (h : code_gen (.Call cname args) st = .ok (st2, em)) :
    ∀ op ∈ em, op.isHalt = false := by
  simp only [code_gen] at h
  repeat' split at h
  all_goals try (exact Except.noConfusion h)
  all_goals obtain ⟨h1, h2⟩ := Prod.mk.inj (Except.ok.inj h)
  all_goals subst h2
  all_goals intro op hop
  all_goals simp only [List.mem_cons, List.not_mem_nil, or_false] at hop
  all_goals try (subst hop; rfl)
  all_goals rcases hop with rfl | rfl <;> rfl

/-- `code_gen` never emits `Halt` for a parsed statement (`Let` or call). -/
theorem code_gen_stmt_noHalt (s0 : Ast) (hs : stmtShape s0 = true)
    (st st2 : SymbolTable) (em : List OpCode)
    (h : code_gen s0 st = .ok (st2, em)) : ∀ op ∈ em, op.isHalt = false := by
  cases s0
  case Let n t v => exact code_gen_let_noHalt n t v st st2 em h
  case Call c a => exact code_gen_call_noHalt c a st st2 em h
  all_goals exact absurd hs (by simp [stmtShape])

/-- `code_genList` never emits `Halt` over a list of statements. -/
theorem code_genList_stmts_noHalt (l : List Ast)
    (hl : ∀ s0 ∈ l, stmtShape s0 = true) :
    ∀ st st2 em, code_genList l st = .ok (st2, em) →
      ∀ op ∈ em, op.isHalt = false := by
  induction l with
  | nil =>
    intro st st2 em h
    simp only [code_genList] at h
    obtain ⟨h1, h2⟩ := Prod.mk.inj (Except.ok.inj h)
    subst h2
    intro op hop
    exact absurd hop (by simp)
  | cons a l2 ih =>
    intro st st2 em h
    simp only [code_genList] at h
    cases hg : code_gen a st with
    | error e => simp only [hg] at h; exact absurd h (by simp)
    | ok p =>
      obtain ⟨st1, ops1⟩ := p
      simp only [hg] at h
      cases hg2 : code_genList l2 st1 with
      | error e => simp only [hg2] at h; exact absurd h (by simp)
      | ok q =>
        obtain ⟨stq, ops2⟩ := q
        simp only [hg2] at h
        obtain ⟨h1, h2⟩ := Prod.mk.inj (Except.ok.inj h)
        subst h2
        intro op hop
        rcases List.mem_append.mp hop with hmem | hmem
        · exact code_gen_stmt_noHalt a (hl a (by simp)) st st1 ops1 hg op hmem
        · exact ih (fun x hx => hl x (by simp [hx])) st1 stq ops2 hg2 op hmem

/-- `code_gen` never emits `Halt` for a top-level declaration. -/
theorem code_gen_decl_noHalt (d : Ast) (hd : declShape d = true) :
    ∀ st st2 em, code_gen d st = .ok (st2, em) →
      ∀ op ∈ em, op.isHalt = false := by
  cases d
  case Const a b c =>
    intro st st2 em h
    simp only [code_gen] at h
    obtain ⟨h1, h2⟩ := Prod.mk.inj (Except.ok.inj h)
    subst h2
    intro op hop
    exact absurd hop (by simp)
  case Fn fname body =>
    intro st st2 em h
    simp only [code_gen] at h
    have hb : ∀ s0 ∈ body, stmtShape s0 = true := by
      simpa [declShape, List.all_eq_true] using hd
    exact code_genList_stmts_noHalt body hb _ st2 em h
  all_goals exact absurd hd (by simp [declShape])

/-- `code_genList` never emits `Halt` over a list of declarations. -/
theorem code_genList_decls_noHalt (l : List Ast)
    (hl : ∀ d ∈ l, declShape d = true) :
    ∀ st st2 em, code_genList l st = .ok (st2, em) →
      ∀ op ∈ em, op.isHalt = false := by
  induction l with
  | nil =>
    intro st st2 em h
    simp only [code_genList] at h
    obtain ⟨h1, h2⟩ := Prod.mk.inj (Except.ok.inj h)
    subst h2
    intro op hop
    exact absurd hop (by simp)
  | cons a l2 ih =>
    intro st st2 em h
    simp only [code_genList] at h
    cases hg : code_gen a st with
    | error e => simp only [hg] at h; exact absurd h (by simp)
    | ok p =>
      obtain ⟨st1, ops1⟩ := p
      simp only [hg] at h
      cases hg2 : code_genList l2 st1 with
      | error e => simp only [hg2] at h; exact absurd h (by simp)
      | ok q =>
        obtain ⟨stq, ops2⟩ := q
        simp only [hg2] at h
        obtain ⟨h1, h2⟩ := Prod.mk.inj (Except.ok.inj h)
        subst h2
        intro op hop
        rcases List.mem_append.mp hop with hmem | hmem
        · exact code_gen_decl_noHalt a (hl a (by simp)) st st1 ops1 hg op hmem
        · exact ih (fun x hx => hl x (by simp [hx])) st1 stq ops2 hg2 op hmem

/-- For any program of the shape the parser produces, the generated opcode
vector is a `Halt`-free body followed by exactly one final `Halt`. -/
theorem code_gen_prog_shape (ast : Ast) (hp : progShape ast = true)
    (st st2 : SymbolTable) (ops : List OpCode)
    (h : code_gen ast st = .ok (st2, ops)) :
    ∃ body, ops = body ++ [.Halt] ∧ ∀ op ∈ body, op.isHalt = false := by
  cases ast
  case Block decls =>
    simp only [code_gen] at h
    cases hg : code_genList decls st with
    | error e => simp only [hg] at h; exact absurd h (by simp)
    | ok p =>
      obtain ⟨st1, ops1⟩ := p
      simp only [hg] at h
      obtain ⟨h1, h2⟩ := Prod.mk.inj (Except.ok.inj h)
      subst h2
      have hdecls : ∀ d ∈ decls, declShape d = true := by
        simpa [progShape, List.all_eq_true] using hp
      exact ⟨ops1, rfl, code_genList_decls_noHalt decls hdecls st st1 ops1 hg⟩
  all_goals exact absurd hp (by simp [progShape])

/-- The fetch-execute loop over a `Halt`-free prefix followed by `Halt` counts
exactly one step per instruction: no instruction changes the program counter
by anything but +1. -/
theorem interpretGo_steps (pre : List OpCode)
    (hpre : ∀ op ∈ pre, op.isHalt = false) :
    ∀ (s : VmState) (k : Nat) (out : List String) (m : Nat),
      interpretGo (pre ++ [.Halt]) s k = some (out, m) →
      m = k + pre.length + 1 := by
  induction pre with
  | nil =>
    intro s k out m h
    simp only [List.nil_append, interpretGo, OpCode.isHalt, if_true] at h
    obtain ⟨h1, h2⟩ := Prod.mk.inj (Option.some.inj h)
    simp [← h2]
  | cons op0 pre2 ih =>
    intro s k out m h
    have hfalse : op0.isHalt = false := hpre op0 (by simp)
    simp only [List.cons_append, interpretGo, hfalse, Bool.false_eq_true,
      if_false] at h
    cases he : exec1 op0 s with
    | some s2 =>
      simp only [he] at h
      have hm := ih (fun op hop => hpre op (by simp [hop])) s2 (k + 1) out m h
      simp only [List.length_cons]
      omega
    | none => simp only [he] at h; exact absurd h (by simp)

end Bee

/-- The analysis-passing program `fn main { print_integer(40) }` whose
generated code faults in the VM. -/
def astC5 : Ast := .Block [.Fn "main" [.Call "print_integer" [.Int 40]]]

/-- Claim C5, counterexample: `fn main { print_integer(40) }` passes analysis
and code generation, producing `[Print 40, Halt]` — the literal 40 is used as a
register index — and the VM panics indexing register 40 of the 32-register
bank instead of reaching `Halt` in 2 steps. -/
theorem claim_c5_counterexample :
    Bee.analyze astC5 ⟨[], [], []⟩ = .ok ⟨[], [⟨"main"⟩], []⟩ ∧
    Bee.code_gen astC5 ⟨[], [⟨"main"⟩], []⟩ =
      .ok (⟨[], [⟨"main"⟩, ⟨"main"⟩], []⟩, [.Print 40, .Halt]) ∧
    Bee.interpret [.Print 40, .Halt] = none :=
  ⟨by decide, by decide, by decide⟩

/-- Claim C5 (amended): for every program of the parser's shape, the generated
instruction sequence ends with exactly one `Halt` (its last instruction, with
no other `Halt` in the sequence), and whenever the VM completes without a
fault it has fetched exactly as many instructions as were emitted.  A faulting
instruction (a register index ≥ 32, or a load from a never-stored slot) aborts
execution without reaching `Halt`, as the counterexample shows. -/
theorem claim_c5_amended (ast : Ast) (st st2 : Bee.SymbolTable)
    (ops : List Bee.OpCode) (h1 : progShape ast = true)
    (h2 : Bee.code_gen ast st = .ok (st2, ops)) :
    (∃ body, ops = body ++ [.Halt] ∧ ∀ op ∈ body, op.isHalt = false) ∧
    (∀ out n, Bee.interpret ops = some (out, n) → n = ops.length) := by
  obtain ⟨body, hops, hbody⟩ := Bee.code_gen_prog_shape ast h1 st st2 ops h2
  refine ⟨⟨body, hops, hbody⟩, ?_⟩
  intro out n h
  subst hops
  have hn := Bee.interpretGo_steps body hbody _ 0 out n h
  simp only [List.length_append, List.length_cons, List.length_nil]
  omega

/-- The program `fn main { print_bool(True) }` used to witness the amended C5
theorem. -/
def astC5w : Ast := .Block [.Fn "main" [.Call "print_bool" [.UpName "True"]]]

/-- Claim C5, witness: the amended theorem applied to the concrete program
`fn main { print_bool(True) }`, whose generated code is `[Print 1, Halt]` and
whose interpretation takes exactly 2 steps. -/
theorem claim_c5_witness :
    (progShape astC5w = true ∧
     Bee.code_gen astC5w ⟨[], [], []⟩ =
       .ok (⟨[], [⟨"main"⟩], []⟩, [.Print 1, .Halt])) ∧
    ((∃ body, [Bee.OpCode.Print 1, Bee.OpCode.Halt] = body ++ [.Halt] ∧
        ∀ op ∈ body, op.isHalt = false) ∧
     (∀ out n, Bee.interpret [Bee.OpCode.Print 1, Bee.OpCode.Halt] = some (out, n) →
        n = [Bee.OpCode.Print 1, Bee.OpCode.Halt].length)) :=
  ⟨⟨by decide, by decide⟩,
   claim_c5_amended astC5w ⟨[], [], []⟩ ⟨[], [⟨"main"⟩], []⟩
     [.Print 1, .Halt] (by decide) (by decide)⟩

/-- Claim C1: scenario A as written fails analysis — the `Plus` operand check
of `analyze` resolves `ctest` only against variables, panicking "Variable not
found" at the `ctest_add` statement — so the pipeline produces no output; with
the constant reference replaced by its literal value 5, the full pipeline
succeeds and prints the rendering of 1 then of 6, in that order. -/
theorem claim_c1 :
    Bee.analyze scenarioA ⟨[], [], []⟩ = .error .variableNotFound ∧
    Bee.pipeline scenarioA = none ∧
    Bee.pipeline scenarioAInlined = some ["1", "6"] :=
  ⟨by decide, by decide, by decide⟩

/-- The program `const c: Integer = 5  fn main { let x: Integer = c }` of
claim C2. -/
def progC2 : Ast :=
  .Block [.Const "c" "Integer" (.Int 5), .Fn "main" [.Let "x" "Integer" (.Name "c")]]

/-- Claim C2: the analyzer's `Let`-with-`Name` arm consults only the variable
list, never the constants, so a `Let` whose initializer names a declared
constant of the declared type fails analysis with "Variable not found" — while
the generator's own `Let`-with-`Name` arm (`main.rs` lines 90-109) resolves
the same reference constants-first and inlines the value. -/
theorem claim_c2 :
    Bee.analyze progC2 ⟨[], [], []⟩ = .error .variableNotFound ∧
    Bee.code_gen (.Let "x" "Integer" (.Name "c"))
      ⟨[⟨"x", "Integer"⟩], [], [⟨"c", "Integer", "5"⟩]⟩ =
      .ok (⟨[⟨"x", "Integer"⟩], [], [⟨"c", "Integer", "5"⟩]⟩,
           [.LoadImm 1 5, .Store 0 1]) :=
  ⟨by decide, by decide⟩

/-- The single-variable symbol table used by claim C3. -/
def stC3 : CG.SymbolTable := ⟨[⟨"main", [⟨"x", "Integer"⟩]⟩], []⟩

/-- Claim C3: in `code_gen.rs`, an integer-literal operand of `add` is used
directly as a register index of the `Add` opcode — `let x: Integer = add(7, 9)`
emits only `[Add 3 7 9, Store 0 3]`, no instruction loading 7 or 9 into
registers 1 and 2; a constant operand of `sub` likewise contributes its parsed
value (5) as a register index with no load. -/
theorem claim_c3 :
    CG.code_gen (.Let "x" "Integer" (.Call "add" [.Int 7, .Int 9])) stC3 [] =
      .ok (stC3, [.Add 3 7 9, .Store 0 3]) ∧
    CG.code_gen (.Let "x" "Integer" (.Call "sub" [.Name "c", .Int 2]))
      ⟨[⟨"main", [⟨"x", "Integer"⟩]⟩], [⟨"c", "Integer", "5"⟩]⟩ [] =
      .ok (⟨[⟨"main", [⟨"x", "Integer"⟩]⟩], [⟨"c", "Integer", "5"⟩]⟩,
           [.Sub 3 5 2, .Store 0 3]) :=
  ⟨by decide, by decide⟩

/-- Claim C6: `let x: Integer = "hi"` fails analysis with the "Type mismatch"
panic and `let x: Bool = add(1,2)` fails with the "Invalid type" panic (the
`Plus` arm requires the declared type to be `Integer`) — both in the spec's
`TypeError` class — in any symbol-table state, and analysis aborts at the
failing statement: no following statement is processed. -/
theorem claim_c6 :
    ∀ (st : Bee.SymbolTable) (s2 : Ast),
      Bee.analyze (.Let "x" "Integer" (Ast.String "hi")) st = .error .typeMismatch ∧
      Bee.analyze (.Let "x" "Bool" (.Plus (.Int 1) (.Int 2))) st = .error .invalidType ∧
      Bee.analyzeList [.Let "x" "Integer" (Ast.String "hi"), s2] st =
        .error .typeMismatch :=
  fun _ _ => ⟨rfl, rfl, rfl⟩

/-- The constant-referencing program of claim C7. -/
def progC7 : Ast :=
  .Block [.Const "c" "Integer" (.Int 5),
          .Fn "main" [.Call "print_integer" [.Name "c"]]]

/-- `progC7` with the constant's literal value substituted at the reference
site (the constant declaration itself remains). -/
def progC7sub : Ast :=
  .Block [.Const "c" "Integer" (.Int 5),
          .Fn "main" [.Call "print_integer" [.Int 5]]]

/-- Claim C7: substituting a constant's literal value at its reference site
changes the output.  `print_integer(c)` loads 5 into register 1 and prints
"5"; the substituted `print_integer(5)` emits `Print 5`, which prints
register 5 (still 0), producing "0". -/
theorem claim_c7 :
    Bee.pipeline progC7 = some ["5"] ∧
    Bee.pipeline progC7sub = some ["0"] ∧
    (["5"] : List String) ≠ ["0"] :=
  ⟨by decide, by decide, by decide⟩

/-- The program `fn main { let x: Integer = 6  print_integer(x) }` of
claim C8. -/
def progC8 : Ast :=
  .Block [.Fn "main" [.Let "x" "Integer" (.Int 6),
                      .Call "print_integer" [.Name "x"]]]

/-- Claim C8, counterexample: the VM prints the bare `usize` value — the
program printing the integer 6 outputs the line "6", not the tagged
rendering "Int(6)". -/
theorem claim_c8_counterexample :
    Bee.pipeline progC8 = some ["6"] ∧ ("6" : String) ≠ "Int(6)" :=
  ⟨by decide, by decide⟩

/-- Claim C8 (amended): every `Print` instruction the VM executes appends the
bare decimal rendering (`Display` of the untagged `usize` register value) to
the output — there is no runtime tag in the rendering. -/
theorem claim_c8_amended (s : Bee.VmState) (a : Nat) (s2 : Bee.VmState)
    (h : Bee.exec1 (.Print a) s = some s2) :
    s2.out = s.out ++ [toString (s.regs a)] := by
  simp only [Bee.exec1, Bee.regGet] at h
  by_cases ha : a < 32
  · rw [if_pos ha] at h
    cases Option.some.inj h
    rfl
  · rw [if_neg ha] at h
    exact absurd h (by simp)

/-- Claim C8, witness: the amended theorem applied to printing register 1 of a
bank holding 6 everywhere. -/
theorem claim_c8_witness :
    Bee.exec1 (.Print 1) ⟨fun _ => 6, fun _ => none, []⟩ =
      some ⟨fun _ => 6, fun _ => none, ["6"]⟩ ∧
    (⟨fun _ => 6, fun _ => none, ["6"]⟩ : Bee.VmState).out =
      (⟨fun _ => 6, fun _ => none, []⟩ : Bee.VmState).out ++
        [toString ((⟨fun _ => 6, fun _ => none, []⟩ : Bee.VmState).regs 1)] :=
  ⟨rfl, claim_c8_amended ⟨fun _ => 6, fun _ => none, []⟩ 1
    ⟨fun _ => 6, fun _ => none, ["6"]⟩ rfl⟩

/-- Claim C9: `print_bool` with a literal argument emits no instruction that
evaluates the argument — `print_bool(False)` emits only `Print 0` (reading
register 0) and `print_bool(True)` only `Print 1`, instead of loading the
boolean into register 1 and printing register 1. -/
theorem claim_c9 :
    CG.code_gen (.Call "print_bool" [.UpName "False"]) ⟨[], []⟩ [] =
      .ok (⟨[], []⟩, [.Print 0]) ∧
    CG.code_gen (.Call "print_bool" [.UpName "True"]) ⟨[], []⟩ [] =
      .ok (⟨[], []⟩, [.Print 1]) :=
  ⟨by decide, by decide⟩

namespace CG

/-- Frame property of the `code_gen.rs` generator, proved by strong induction
on term size: no arm of `code_gen` or `code_genList` writes the symbol table,
and the opcode vector is only appended to. -/
theorem code_gen_frame_aux : ∀ N : Nat,
    (∀ ast : Ast, sizeOf ast ≤ N → ∀ st ops st2 ops2,
      code_gen ast st ops = .ok (st2, ops2) →
      st2 = st ∧ ∃ tail, ops2 = ops ++ tail) ∧
    (∀ l : List Ast, sizeOf l ≤ N → ∀ st ops st2 ops2,
      code_genList l st ops = .ok (st2, ops2) →
      st2 = st ∧ ∃ tail, ops2 = ops ++ tail) := by
  intro N
  induction N using Nat.strong_induction_on with
  | _ N IH =>
    constructor
    · intro ast hsize st ops st2 ops2 h
      cases ast
      case Block statements =>
        simp only [code_gen] at h
        have hlt : sizeOf statements < N := by
          have hspec : sizeOf (Ast.Block statements) = 1 + sizeOf statements := by
            simp
          omega
        exact (IH (sizeOf statements) hlt).2 statements le_rfl st ops st2 ops2 h
      all_goals simp only [code_gen] at h
      all_goals repeat' split at h
      all_goals try (exact Except.noConfusion h)
      all_goals obtain ⟨h1, h2⟩ := Prod.mk.inj (Except.ok.inj h)
      all_goals exact ⟨h1.symm, _, h2.symm⟩
    · intro l hsize st ops st2 ops2 h
      cases l with
      | nil =>
        simp only [code_genList] at h
        obtain ⟨h1, h2⟩ := Prod.mk.inj (Except.ok.inj h)
        exact ⟨h1.symm, [], by simp [← h2]⟩
      | cons a l2 =>
        simp only [code_genList] at h
        cases hg : code_gen a st ops with
        | error e => simp only [hg] at h; exact absurd h (by simp)
        | ok p =>
          obtain ⟨st1, ops1⟩ := p
          simp only [hg] at h
          have ha : sizeOf a < N := by
            have hspec : sizeOf (a :: l2) = 1 + sizeOf a + sizeOf l2 := by simp
            have : 0 < sizeOf l2 := by cases l2 <;> simp
            omega
          have hl2 : sizeOf l2 < N := by
            have hspec : sizeOf (a :: l2) = 1 + sizeOf a + sizeOf l2 := by simp
            omega
          obtain ⟨hst1, t1, ht1⟩ := (IH (sizeOf a) ha).1 a le_rfl st ops st1 ops1 hg
          obtain ⟨hst2, t2, ht2⟩ :=
            (IH (sizeOf l2) hl2).2 l2 le_rfl st1 ops1 st2 ops2 h
          subst hst1
          subst hst2
          exact ⟨rfl, t1 ++ t2, by rw [ht2, ht1, List.append_assoc]⟩

end CG

/-- Claim C10: the `code_gen.rs` generator leaves the symbol table unchanged —
after `code_gen` (hence every recursive call) and after `code_gen_document`
return successfully, the table (its constants list and every function's
variables list) equals its value on entry, and the only mutation is appending
to the opcode vector. -/
theorem claim_c10_frame :
    (∀ (ast : Ast) (st : CG.SymbolTable) (ops : List CG.OpCode)
       (st2 : CG.SymbolTable) (ops2 : List CG.OpCode),
       CG.code_gen ast st ops = .ok (st2, ops2) →
       st2 = st ∧ ∃ tail, ops2 = ops ++ tail) ∧
    (∀ (doc : CG.Document) (st : CG.SymbolTable) (ops : List CG.OpCode)
       (st2 : CG.SymbolTable) (ops2 : List CG.OpCode),
       CG.code_gen_document doc st ops = .ok (st2, ops2) →
       st2 = st ∧ ∃ tail, ops2 = ops ++ tail) := by
  refine ⟨fun ast => (CG.code_gen_frame_aux (sizeOf ast)).1 ast le_rfl, ?_⟩
  intro doc st ops st2 ops2 h
  simp only [CG.code_gen_document] at h
  cases hhd : doc.functions.head? with
  | none => simp only [hhd] at h; exact absurd h (by simp)
  | some main_function =>
    simp only [hhd] at h
    cases hg : CG.code_genList main_function.body st ops with
    | error e => simp only [hg] at h; exact absurd h (by simp)
    | ok p =>
      obtain ⟨st1, ops1⟩ := p
      simp only [hg] at h
      obtain ⟨h1, h2⟩ := Prod.mk.inj (Except.ok.inj h)
      obtain ⟨hst1, t1, ht1⟩ :=
        (CG.code_gen_frame_aux (sizeOf main_function.body)).2 main_function.body
          le_rfl st ops st1 ops1 hg
      subst hst1
      exact ⟨h1.symm, t1 ++ [.Halt], by rw [← h2, ht1, List.append_assoc]⟩

/-- Claim C10, witness: the frame theorem applied to the statement
`print_string("hey")` starting from a nonempty opcode vector, and to a
one-function document. -/
theorem claim_c10_witness :
    (CG.code_gen (.Call "print_string" [Ast.String "hey"]) ⟨[], []⟩ [.Halt] =
       .ok (⟨[], []⟩, [.Halt, .LoadStringConst 1 "hey", .Print 1]) ∧
     ((⟨[], []⟩ : CG.SymbolTable) = ⟨[], []⟩ ∧
      ∃ tail, [CG.OpCode.Halt, .LoadStringConst 1 "hey", .Print 1] =
        [CG.OpCode.Halt] ++ tail)) ∧
    (CG.code_gen_document ⟨[], [⟨"main", [.Call "print_string" [Ast.String "hey"]]⟩]⟩
       ⟨[], []⟩ [] =
       .ok (⟨[], []⟩, [.LoadStringConst 1 "hey", .Print 1, .Halt]) ∧
     ((⟨[], []⟩ : CG.SymbolTable) = ⟨[], []⟩ ∧
      ∃ tail, [CG.OpCode.LoadStringConst 1 "hey", .Print 1, .Halt] =
        ([] : List CG.OpCode) ++ tail)) :=
  ⟨⟨by decide,
    claim_c10_frame.1 (.Call "print_string" [Ast.String "hey"]) ⟨[], []⟩ [.Halt]
      ⟨[], []⟩ [.Halt, .LoadStringConst 1 "hey", .Print 1] (by decide)⟩,
   ⟨by decide,
    claim_c10_frame.2 ⟨[], [⟨"main", [.Call "print_string" [Ast.String "hey"]]⟩]⟩
      ⟨[], []⟩ [] ⟨[], []⟩ [.LoadStringConst 1 "hey", .Print 1, .Halt] (by decide)⟩⟩
